import Mathlib

/-!
Verification of the focusmusic real-time composition core.

The embedding translates, from the TypeScript source:
  - the Clock (src/clock.ts): listener registry, bpm handling, the
    lookahead poll loop of start(), stop(), and the derived durations;
  - the Engine pieces the claims touch (src/engine.ts): the music state,
    setKitName / setSynthName, and the sidechain-duck automation schedule;
  - the ModulationBank (src/modulation.ts): its implementation file is not
    among the staged sources (only its unit tests are), so it is modelled
    from the specification, as marked on each such definition.

Times and gain values are rationals (JS numbers used as real quantities);
tick, beat, bar and phrase counters are integers (JS numbers used as
integers).  For a nonnegative divisor, JS Math.floor(a / b) is integer
floor division, and the JS remainder test (a % b === 0) agrees with the
Lean test (a % b = 0) on every integer a, so the Lean operators / and %
on Int translate the tick arithmetic of src/clock.ts exactly.
-/

/-- One subscribed clock listener (interface ClockListener, src/clock.ts).
JS listeners are objects with optional onTick / onBeat / onBar / onPhrase
methods; the embedding records the object identity as an id and records
which of the four optional callbacks the object defines as four flags. -/
structure ClockListener where
  id : ℕ
  hasOnTick : Bool
  hasOnBeat : Bool
  hasOnBar : Bool
  hasOnPhrase : Bool
deriving DecidableEq

/-- Which of the four callback kinds an invocation is. -/
inductive CbKind where
  | tick
  | beat
  | bar
  | phrase
deriving DecidableEq

/-- One callback invocation delivered to a listener: the listener identity,
the callback kind, the musical counter passed as first argument, and the
time passed as second argument. -/
structure Invocation where
  listener : ℕ
  kind : CbKind
  num : ℤ
  time : ℚ
deriving DecidableEq

/-- Grid constant ticksPerBeat = 4 (16th notes), src/clock.ts. -/
def ticksPerBeat : ℤ := 4

/-- Grid constant beatsPerBar = 4, src/clock.ts. -/
def beatsPerBar : ℤ := 4

/-- Grid constant barsPerPhrase = 4, src/clock.ts. -/
def barsPerPhrase : ℤ := 4

/-- tickDuration getter: 60 / bpm / ticksPerBeat seconds. -/
def tickDuration (bpm : ℚ) : ℚ := 60 / bpm / 4

/-- beatDuration getter: 60 / bpm seconds. -/
def beatDuration (bpm : ℚ) : ℚ := 60 / bpm

/-- barDuration getter: beatDuration * beatsPerBar seconds. -/
def barDuration (bpm : ℚ) : ℚ := beatDuration bpm * 4

/-- The mutable state of one Clock object (class Clock, src/clock.ts).
lastScheduledTick is the local variable of start() captured by the
schedule closure; running stands for the presence of intervalId.  The
debug warning (a console log plus a throttle timestamp) is not modelled:
it never changes which events fire nor their payloads. -/
structure ClockState where
  bpm : ℚ
  lookahead : ℚ
  listeners : List ClockListener
  startTime : ℚ
  lastScheduledTick : ℤ
  running : Bool
  currentTick : ℤ
  currentBeat : ℤ
  currentBar : ℤ
  currentPhrase : ℤ
deriving DecidableEq

/-- The Clock constructor: stores bpm as passed (no clamping happens here),
stores the injected time source implicitly (poll times are explicit below),
and takes the lookahead option: a truthy options.lookahead overrides the
default 0.2, so passing 0 keeps 0.2, exactly as the JS truthiness test. -/
def clockNew (bpm : ℚ) (lookaheadOption : Option ℚ) : ClockState :=
  { bpm := bpm
    lookahead := match lookaheadOption with
      | some la => if la = 0 then 1/5 else la
      | none => 1/5
    listeners := []
    startTime := 0
    lastScheduledTick := -1
    running := false
    currentTick := 0
    currentBeat := 0
    currentBar := 0
    currentPhrase := 0 }

/-- The callback invocations one tick-firing pass delivers to a single
listener, in source order: onTick, then onBeat when the tick opens a beat,
then onBar when it also opens a bar, then onPhrase when it also opens a
phrase, each skipped when the listener does not define that callback
(the JS optional calls l.onTick?.() and so on), all with the same
tickStartTime (src/clock.ts, the forEach body of schedule). -/
def listenerFire (l : ClockListener) (tick : ℤ) (tickStartTime : ℚ) : List Invocation :=
  let tickInBeat := tick % ticksPerBeat
  let beat := tick / ticksPerBeat
  let beatInBar := beat % beatsPerBar
  let bar := beat / beatsPerBar
  let barInPhrase := bar % barsPerPhrase
  let phrase := bar / barsPerPhrase
  (if l.hasOnTick then [⟨l.id, CbKind.tick, tick, tickStartTime⟩] else []) ++
  (if tickInBeat = 0 then
    (if l.hasOnBeat then [⟨l.id, CbKind.beat, beat, tickStartTime⟩] else []) else []) ++
  (if tickInBeat = 0 ∧ beatInBar = 0 then
    (if l.hasOnBar then [⟨l.id, CbKind.bar, bar, tickStartTime⟩] else []) else []) ++
  (if tickInBeat = 0 ∧ beatInBar = 0 ∧ barInPhrase = 0 then
    (if l.hasOnPhrase then [⟨l.id, CbKind.phrase, phrase, tickStartTime⟩] else []) else [])

/-- One tick-firing pass over the whole subscriber list, in subscription
order (this.listeners.forEach in schedule, src/clock.ts). -/
def fireTickEvents (listeners : List ClockListener) (tick : ℤ) (tickStartTime : ℚ) :
    List Invocation :=
  listeners.flatMap fun l => listenerFire l tick tickStartTime

/-- The integers lo, lo+1, ..., hi, empty when hi < lo: the index sequence
of the JS loop for (let tick = lo; tick <= hi; tick++). -/
def intRange (lo hi : ℤ) : List ℤ :=
  (List.range (hi + 1 - lo).toNat).map fun n : ℕ => lo + (n : ℤ)

/-- The target tick one poll computes: with elapsed = now - startTime,
Math.floor(elapsed / tickDuration + lookahead / tickDuration)
(schedule, src/clock.ts). -/
def targetTickOf (bpm startTime lookahead now : ℚ) : ℤ :=
  ⌊(now - startTime) / tickDuration bpm + lookahead / tickDuration bpm⌋

/-- The ticks one poll fires: lastScheduledTick + 1 up to the target tick. -/
def pollTicks (s : ClockState) (now : ℚ) : List ℤ :=
  intRange (s.lastScheduledTick + 1) (targetTickOf s.bpm s.startTime s.lookahead now)

/-- The operations that can hit a started Clock, each tagged with the value
the injected time source would return where the source reads it.  A poll is
one run of the schedule closure (both the immediate call inside start() and
every later setInterval firing). -/
inductive ClockAction where
  | poll (now : ℚ)
  | setBpm (bpm : ℚ)
  | stop
  | subscribe (l : ClockListener)
  | unsubscribe (l : ClockListener)
deriving DecidableEq

/-- unsubscribe(listener): indexOf then splice(idx, 1) when found
(src/clock.ts).  JS indexOf returns -1 when absent; List.indexOf returns
the length, so the guard idx < length is the JS guard idx >= 0. -/
def unsubscribeList (listeners : List ClockListener) (l : ClockListener) :
    List ClockListener :=
  let idx := List.indexOf l listeners
  if idx < listeners.length then listeners.eraseIdx idx else listeners

/-- One step of a Clock run: the successor state and the invocations the
step delivers.  A poll on a stopped clock does nothing (after clearInterval
the schedule closure never runs).  A running poll fires every tick from
lastScheduledTick + 1 to the target tick and then sets lastScheduledTick to
the target tick unconditionally, exactly as the schedule closure does; the
current position counters follow the last loop iteration when the loop ran. -/
def stepClock (s : ClockState) (a : ClockAction) : ClockState × List Invocation :=
  match a with
  | .poll now =>
    if s.running then
      let targetTick := targetTickOf s.bpm s.startTime s.lookahead now
      let fired := s.lastScheduledTick + 1 ≤ targetTick
      ({ s with
          lastScheduledTick := targetTick
          currentTick := if fired then targetTick else s.currentTick
          currentBeat := if fired then targetTick / ticksPerBeat else s.currentBeat
          currentBar := if fired then targetTick / ticksPerBeat / beatsPerBar else s.currentBar
          currentPhrase :=
            if fired then targetTick / ticksPerBeat / beatsPerBar / barsPerPhrase
            else s.currentPhrase },
        (pollTicks s now).flatMap fun t =>
          fireTickEvents s.listeners t (s.startTime + t * tickDuration s.bpm))
    else (s, [])
  | .setBpm b => ({ s with bpm := max 60 (min 140 b) }, [])
  | .stop => ({ s with running := false }, [])
  | .subscribe l => ({ s with listeners := s.listeners ++ [l] }, [])
  | .unsubscribe l => ({ s with listeners := unsubscribeList s.listeners l }, [])

/-- start(): records the start time, resets every counter to zero, resets
the captured lastScheduledTick to -1 and begins polling (src/clock.ts).
The immediate schedule() call at the end of start() is the first poll
action of the run. -/
def startClock (s : ClockState) (now : ℚ) : ClockState :=
  { s with
      startTime := now
      currentTick := 0
      currentBeat := 0
      currentBar := 0
      currentPhrase := 0
      lastScheduledTick := -1
      running := true }

/-- A whole run: fold the actions, concatenating the delivered invocations. -/
def runClock : ClockState → List ClockAction → ClockState × List Invocation
  | s, [] => (s, [])
  | s, a :: rest =>
    let step := stepClock s a
    let next := runClock step.1 rest
    (next.1, step.2 ++ next.2)

/-- The tick numbers the run fires, in firing order: the values the tick
loop variable of schedule takes, concatenated over the polls of the run. -/
def runFiredTicks : ClockState → List ClockAction → List ℤ
  | _, [] => []
  | s, .poll now :: rest =>
    (if s.running then pollTicks s now else []) ++
      runFiredTicks (stepClock s (.poll now)).1 rest
  | s, a :: rest => runFiredTicks (stepClock s a).1 rest

/-- Whether an action is a setBpm call. -/
def isSetBpm : ClockAction → Bool
  | .setBpm _ => true
  | _ => false

/-- The time-source values of the poll actions of a run, in order. -/
def pollTimes : List ClockAction → List ℚ
  | [] => []
  | .poll now :: rest => now :: pollTimes rest
  | _ :: rest => pollTimes rest

/-- The scheduled tick a callback invocation belongs to: an onTick for tick
n belongs to tick n; onBeat, onBar and onPhrase fire only when the tick
opens the respective unit, so beat n belongs to tick 4n, bar n to tick 16n
and phrase n to tick 64n. -/
def evTick (e : Invocation) : ℤ :=
  match e.kind with
  | .tick => e.num
  | .beat => 4 * e.num
  | .bar => 16 * e.num
  | .phrase => 64 * e.num

/-- A listener object defining all four optional callbacks. -/
def fullListener (i : ℕ) : ClockListener :=
  { id := i, hasOnTick := true, hasOnBeat := true, hasOnBar := true, hasOnPhrase := true }

/-- The per-track music state (interface MusicState, src/engine.ts). -/
structure MusicState where
  root : ℤ
  scale : List ℤ
  scaleName : String
  notes : List ℤ
  kitName : String
  synthName : String
deriving DecidableEq

/-- Modelled from the spec: the scale interval table SCALES of
src/utils/scales.ts is consumed as a static read-only table and its source
file is not among the staged files (only its unit tests are); the four
entries Engine.initMusicState can pick are the interval sets the spec
describes (ordered semitone offsets from the root, each in [0,12)), with
the concrete values pinned by the scale unit tests. -/
def SCALES : String → List ℤ
  | "minorPentatonic" => [0, 3, 5, 7, 10]
  | "dorian" => [0, 2, 3, 5, 7, 9, 10]
  | "phrygian" => [0, 1, 3, 5, 7, 8, 10]
  | "aeolian" => [0, 2, 3, 5, 7, 8, 10]
  | _ => []

/-- Modelled from the spec: getScaleNotes of src/utils/scales.ts (source
file not staged) derives the note list as root plus scale degrees repeated
across the requested octaves, as the spec states and its unit tests pin. -/
def getScaleNotes (root : ℤ) (scale : List ℤ) (octaves : ℕ) : List ℤ :=
  (List.range octaves).flatMap fun o : ℕ => scale.map fun iv => root + 12 * (o : ℤ) + iv

/-- The curated scale names of Engine.initMusicState (src/engine.ts). -/
def goodScales : List String := ["minorPentatonic", "dorian", "phrygian", "aeolian"]

/-- The curated low-register root notes of Engine.initMusicState. -/
def engineRoots : List ℤ := [38, 40, 41, 43, 45]

/-- Engine.initMusicState (src/engine.ts): picks one curated scale and one
curated root (the two Math.random draws appear as the two index
parameters, reduced modulo the list lengths as Math.floor(random * length)
guarantees), derives four octaves of notes, and leaves the kit and synth
names empty. -/
def initMusicState (scaleIdx rootIdx : ℕ) : MusicState :=
  let scaleName := goodScales.getD (scaleIdx % goodScales.length) ""
  let scale := SCALES scaleName
  let root := engineRoots.getD (rootIdx % engineRoots.length) 0
  { root := root
    scale := scale
    scaleName := scaleName
    notes := getScaleNotes root scale 4
    kitName := ""
    synthName := "" }

/-- Engine.setKitName (src/engine.ts): writes this.state.kitName. -/
def setKitName (st : MusicState) (name : String) : MusicState :=
  { st with kitName := name }

/-- Engine.setSynthName (src/engine.ts): writes this.state.synthName. -/
def setSynthName (st : MusicState) (name : String) : MusicState :=
  { st with synthName := name }

/-- One Web Audio parameter automation command, as the Engine issues them. -/
inductive AutomationCmd where
  | setValueAtTime (value time : ℚ)
  | linearRampToValueAtTime (value time : ℚ)
deriving DecidableEq

/-- One scheduled automation event: which node, which parameter, which
command. -/
structure ParamEvent where
  node : String
  param : String
  cmd : AutomationCmd
deriving DecidableEq

/-- Engine field duckAmount = 0.65 (src/engine.ts). -/
def duckAmount : ℚ := 65/100

/-- Engine field duckRelease = 0.12 (src/engine.ts). -/
def duckRelease : ℚ := 12/100

/-- Engine.triggerSidechain(time) (src/engine.ts): schedules, on the gain
parameter of the shared sidechainGain node and on nothing else, value 1 at
time, a linear ramp to duckAmount at time + 0.003 (the 3ms attack), and a
linear ramp back to 1 at time + 0.003 + duckRelease. -/
def triggerSidechain (time : ℚ) : List ParamEvent :=
  let attackTime : ℚ := 3/1000
  [ ⟨"sidechainGain", "gain", .setValueAtTime 1 time⟩,
    ⟨"sidechainGain", "gain", .linearRampToValueAtTime duckAmount (time + attackTime)⟩,
    ⟨"sidechainGain", "gain", .linearRampToValueAtTime 1 (time + attackTime + duckRelease)⟩ ]

/-- The (time, value) breakpoints of the scheduled gain envelope, in
schedule order: both command kinds pin the parameter to the given value at
the given time, so each scheduled command contributes one breakpoint. -/
def cmdPoint : AutomationCmd → ℚ × ℚ
  | .setValueAtTime v t => (t, v)
  | .linearRampToValueAtTime v t => (t, v)

/-- The breakpoints triggerSidechain schedules at a given trigger time. -/
def envBreakpoints (time : ℚ) : List (ℚ × ℚ) :=
  (triggerSidechain time).map fun e => cmdPoint e.cmd

/-- A hold at value v: two consecutive breakpoints both at value v with the
second strictly later, i.e. a constant segment of positive length. -/
def HasHoldSegment (bps : List (ℚ × ℚ)) (v : ℚ) : Prop :=
  ∃ i : ℕ, ∃ p q : ℚ × ℚ, bps.get? i = some p ∧ bps.get? (i + 1) = some q ∧
    p.2 = v ∧ q.2 = v ∧ p.1 < q.1

/-- Modelled from the spec: class Modulator of src/modulation.ts is not
among the staged sources (only its unit tests are).  Per the spec a
Modulator holds base, range, speed and a per-instance random phase offset,
and samples a continuous coherent-noise field at t * speed plus the
offset; the noise field itself is kept as a function-valued field. -/
structure Modulator where
  base : ℚ
  range : ℚ
  speed : ℚ
  phase : ℚ
  noise : ℚ → ℚ

/-- Modelled from the spec: the noise sample a Modulator reads at time t. -/
def Modulator.sample (m : Modulator) (t : ℚ) : ℚ :=
  m.noise (t * m.speed + m.phase)

/-- Modelled from the spec: Modulator.getValue(t) = base + range * sample,
a value in [base - range, base + range] when the noise field stays in
[-1, 1]. -/
def Modulator.getValue (m : Modulator) (t : ℚ) : ℚ :=
  m.base + m.range * m.sample t

/-- Modelled from the spec: Modulator.getNormalized(t) rescales the same
sample into [0, 1]. -/
def Modulator.getNormalized (m : Modulator) (t : ℚ) : ℚ :=
  (m.sample t + 1) / 2

/-- Modelled from the spec: class ModulationBank of src/modulation.ts, a
named registry of Modulators. -/
structure ModulationBank where
  mods : List (String × Modulator)

/-- Modelled from the spec: a fresh, empty bank. -/
def ModulationBank.empty : ModulationBank := ⟨[]⟩

/-- Modelled from the spec: add(name, config) creates and stores one
modulator under the name. -/
def ModulationBank.add (b : ModulationBank) (name : String) (m : Modulator) :
    ModulationBank :=
  ⟨b.mods ++ [(name, m)]⟩

/-- Modelled from the spec: get(name) is a lookup that may return not
found (undefined in JS, none here); it never throws. -/
def ModulationBank.get (b : ModulationBank) (name : String) : Option Modulator :=
  (b.mods.find? fun p => p.1 == name).map Prod.snd

/-- Modelled from the spec: getValue(name, t) returns the named modulator
value, or 0 for unknown names (fail-soft, never throws). -/
def ModulationBank.getValue (b : ModulationBank) (name : String) (t : ℚ) : ℚ :=
  match b.get name with
  | some m => m.getValue t
  | none => 0

/-- Modelled from the spec: getNormalized(name, t) returns the named
modulator normalized value, or 0.5 for unknown names. -/
def ModulationBank.getNormalized (b : ModulationBank) (name : String) (t : ℚ) : ℚ :=
  match b.get name with
  | some m => m.getNormalized t
  | none => 1/2

/-- A bank built by a sequence of add calls starting from a fresh bank. -/
def buildBank (adds : List (String × Modulator)) : ModulationBank :=
  adds.foldl (fun b p => b.add p.1 p.2) ModulationBank.empty

theorem mem_intRange {lo hi x : ℤ} : x ∈ intRange lo hi ↔ lo ≤ x ∧ x ≤ hi := by
  simp only [intRange, List.mem_map, List.mem_range]
  constructor
  · rintro ⟨n, hn, rfl⟩
    omega
  · intro h
    exact ⟨(x - lo).toNat, by omega, by omega⟩

theorem pairwise_intRange (lo hi : ℤ) : (intRange lo hi).Pairwise (· < ·) := by
  unfold intRange
  refine List.Pairwise.map (fun n : ℕ => lo + (n : ℤ)) ?_ (List.pairwise_lt_range _)
  intro a b h
  dsimp only
  omega

theorem intRange_eq_cons {lo hi : ℤ} (h : lo ≤ hi) :
    intRange lo hi = lo :: intRange (lo + 1) hi := by
  unfold intRange
  have hn : (hi + 1 - lo).toNat = (hi + 1 - (lo + 1)).toNat + 1 := by omega
  rw [hn, List.range_succ_eq_map, List.map_cons]
  congr 1
  · simp
  · rw [List.map_map]
    apply List.map_congr_left
    intro n _
    simp only [Function.comp_apply]
    push_cast
    ring

theorem tickDuration_pos {bpm : ℚ} (h : 0 < bpm) : 0 < tickDuration bpm := by
  unfold tickDuration
  positivity

theorem targetTickOf_mono {bpm t0 la : ℚ} (hb : 0 < bpm) {t t' : ℚ} (h : t ≤ t') :
    targetTickOf bpm t0 la t ≤ targetTickOf bpm t0 la t' := by
  have hd : 0 < tickDuration bpm := tickDuration_pos hb
  apply Int.floor_le_floor
  gcongr

theorem targetTickOf_nonneg {bpm t0 la now : ℚ} (hb : 0 < bpm) (hla : 0 ≤ la)
    (h : t0 ≤ now) : 0 ≤ targetTickOf bpm t0 la now := by
  have hd : 0 < tickDuration bpm := tickDuration_pos hb
  apply Int.floor_nonneg.2
  have h1 : 0 ≤ (now - t0) / tickDuration bpm := div_nonneg (by linarith) hd.le
  have h2 : 0 ≤ la / tickDuration bpm := div_nonneg hla hd.le
  linarith

theorem listenerFire_mem {l : ClockListener} {tick : ℤ} {ts : ℚ} {e : Invocation}
    (he : e ∈ listenerFire l tick ts) :
    e.time = ts ∧ evTick e = tick ∧ e.listener = l.id := by
  unfold listenerFire at he
  simp only [ticksPerBeat, beatsPerBar, barsPerPhrase, List.mem_append] at he
  rcases he with ((h | h) | h) | h <;>
    (repeat split at h) <;>
    simp only [List.mem_singleton, List.not_mem_nil] at h <;>
    (subst h
     refine ⟨rfl, ?_, rfl⟩
     simp only [evTick]
     try omega)

theorem fireTickEvents_mem {L : List ClockListener} {tick : ℤ} {ts : ℚ} {e : Invocation}
    (he : e ∈ fireTickEvents L tick ts) : e.time = ts ∧ evTick e = tick := by
  unfold fireTickEvents at he
  rw [List.mem_flatMap] at he
  obtain ⟨l, _, hl⟩ := he
  exact ⟨(listenerFire_mem hl).1, (listenerFire_mem hl).2.1⟩

theorem stepClock_timing_fields (s : ClockState) (a : ClockAction)
    (h : isSetBpm a = false) :
    (stepClock s a).1.bpm = s.bpm ∧ (stepClock s a).1.startTime = s.startTime ∧
    (stepClock s a).1.lookahead = s.lookahead := by
  cases a with
  | poll now =>
    unfold stepClock
    dsimp only
    split <;> exact ⟨rfl, rfl, rfl⟩
  | setBpm b => simp [isSetBpm] at h
  | stop => exact ⟨rfl, rfl, rfl⟩
  | subscribe l => exact ⟨rfl, rfl, rfl⟩
  | unsubscribe l => exact ⟨rfl, rfl, rfl⟩

theorem stepClock_last_nonpoll (s : ClockState) (a : ClockAction)
    (h : ∀ t, a ≠ ClockAction.poll t) :
    (stepClock s a).1.lastScheduledTick = s.lastScheduledTick := by
  cases a with
  | poll now => exact absurd rfl (h now)
  | setBpm b => rfl
  | stop => rfl
  | subscribe l => rfl
  | unsubscribe l => rfl

theorem stepClock_poll_stopped {s : ClockState} (h : s.running = false) (now : ℚ) :
    stepClock s (ClockAction.poll now) = (s, []) := by
  unfold stepClock
  dsimp only
  rw [h]
  simp

theorem stepClock_poll_running {s : ClockState} (h : s.running = true) (now : ℚ) :
    (stepClock s (ClockAction.poll now)).1.lastScheduledTick =
      targetTickOf s.bpm s.startTime s.lookahead now ∧
    (stepClock s (ClockAction.poll now)).2 =
      (pollTicks s now).flatMap
        (fun t => fireTickEvents s.listeners t (s.startTime + t * tickDuration s.bpm)) := by
  unfold stepClock
  dsimp only
  rw [h]
  simp

theorem stepClock_keeps_stopped {s : ClockState} (h : s.running = false)
    (a : ClockAction) : (stepClock s a).1.running = false := by
  cases a with
  | poll now => rw [stepClock_poll_stopped h]; exact h
  | setBpm b => exact h
  | stop => rfl
  | subscribe l => exact h
  | unsubscribe l => exact h

theorem runClock_events_time :
    ∀ (actions : List ClockAction) (s : ClockState),
      (∀ a ∈ actions, isSetBpm a = false) →
      ∀ e ∈ (runClock s actions).2,
        e.time = s.startTime + evTick e * tickDuration s.bpm := by
  intro actions
  induction actions with
  | nil =>
    intro s _ e he
    simp [runClock] at he
  | cons a rest ih =>
    intro s hnb e he
    simp only [runClock] at he
    rw [List.mem_append] at he
    have hna : isSetBpm a = false := hnb a (List.mem_cons_self a rest)
    rcases he with he | he
    · cases a with
      | poll now =>
        by_cases hr : s.running = true
        · obtain ⟨-, h2⟩ := stepClock_poll_running hr now
          rw [h2, List.mem_flatMap] at he
          obtain ⟨t, _, hmem⟩ := he
          obtain ⟨h3, h4⟩ := fireTickEvents_mem hmem
          rw [h3, h4]
        · rw [stepClock_poll_stopped (by simpa using hr) now] at he
          simp at he
      | setBpm b => simp [isSetBpm] at hna
      | stop => simp [stepClock] at he
      | subscribe l => simp [stepClock] at he
      | unsubscribe l => simp [stepClock] at he
    · have hfields := stepClock_timing_fields s a hna
      have hrec := ih (stepClock s a).1
        (fun x hx => hnb x (List.mem_cons_of_mem _ hx)) e he
      rw [hrec, hfields.1, hfields.2.1]

/-- Claim C1: for every tick fired by a running Clock whose bpm is not
changed after start, the time passed to every listener callback equals
startTime + tick * tickDuration, the scheduled start time of the tick the
invocation belongs to (an onBeat for beat n belongs to tick 4n, an onBar
for bar n to tick 16n, an onPhrase for phrase n to tick 64n); and across
two runs from the same started clock that differ only in their actions,
in particular in when the polls execute, invocations of the same kind and
number carry identical timestamps: polling jitter never changes the
attached timestamp. -/
theorem clock_timestamps_drift_free (s : ClockState) (t0 : ℚ)
    (actions actions2 : List ClockAction)
    (h1 : ∀ a ∈ actions, isSetBpm a = false)
    (h2 : ∀ a ∈ actions2, isSetBpm a = false) :
    (∀ e ∈ (runClock (startClock s t0) actions).2,
      e.time = t0 + evTick e * tickDuration s.bpm) ∧
    (∀ e ∈ (runClock (startClock s t0) actions).2,
      ∀ e2 ∈ (runClock (startClock s t0) actions2).2,
        e.kind = e2.kind → e.num = e2.num → e.time = e2.time) := by
  have hmain := runClock_events_time actions (startClock s t0) h1
  have hmain2 := runClock_events_time actions2 (startClock s t0) h2
  have hs : (startClock s t0).startTime = t0 := rfl
  have hb : (startClock s t0).bpm = s.bpm := rfl
  rw [hs, hb] at hmain hmain2
  refine ⟨hmain, ?_⟩
  intro e he e2 he2 hk hn
  have hev : evTick e = evTick e2 := by
    unfold evTick
    rw [hk, hn]
  rw [hmain e he, hmain2 e2 he2, hev]

/-- Witness for C1: a 120 bpm clock with one subscribed full listener,
started at 0.  The run polling at 0 delivers five invocations — all four
callbacks of tick 0 timestamped 0 and the onTick of tick 1 timestamped
1/8, one tick duration — and a second run that instead polls at 0.01
attaches the same timestamps to invocations of the same kind and number. -/
theorem clock_timestamps_drift_free_witness :
    (runClock
        (startClock { clockNew 120 none with listeners := [fullListener 0] } 0)
        [ClockAction.poll 0]).2 =
      [⟨0, CbKind.tick, 0, 0⟩, ⟨0, CbKind.beat, 0, 0⟩, ⟨0, CbKind.bar, 0, 0⟩,
       ⟨0, CbKind.phrase, 0, 0⟩, ⟨0, CbKind.tick, 1, 1/8⟩] ∧
    (∀ e ∈ (runClock
        (startClock { clockNew 120 none with listeners := [fullListener 0] } 0)
        [ClockAction.poll 0]).2,
      e.time = 0 + evTick e *
        tickDuration { clockNew 120 none with listeners := [fullListener 0] }.bpm) ∧
    (∀ e ∈ (runClock
        (startClock { clockNew 120 none with listeners := [fullListener 0] } 0)
        [ClockAction.poll 0]).2,
      ∀ e2 ∈ (runClock
          (startClock { clockNew 120 none with listeners := [fullListener 0] } 0)
          [ClockAction.poll (1/100)]).2,
        e.kind = e2.kind → e.num = e2.num → e.time = e2.time) := by
  have h := clock_timestamps_drift_free
    { clockNew 120 none with listeners := [fullListener 0] } 0
    [ClockAction.poll 0] [ClockAction.poll (1/100)]
    (by simp [isSetBpm]) (by simp [isSetBpm])
  refine ⟨?_, h.1, h.2⟩
  norm_num [runClock, stepClock, pollTicks, targetTickOf, tickDuration, clockNew,
    startClock, intRange, fullListener, fireTickEvents, listenerFire, ticksPerBeat,
    beatsPerBar, barsPerPhrase]
  rw [show List.range (Int.toNat 2) = [0, 1] from rfl]
  norm_num [List.map_cons, List.map_nil, List.flatMap_cons, List.flatMap_nil]

theorem runFiredTicks_cons_nonpoll (s : ClockState) (a : ClockAction)
    (rest : List ClockAction) (h : ∀ t, a ≠ ClockAction.poll t) :
    runFiredTicks s (a :: rest) = runFiredTicks (stepClock s a).1 rest := by
  cases a with
  | poll t => exact absurd rfl (h t)
  | setBpm b => rfl
  | stop => rfl
  | subscribe l => rfl
  | unsubscribe l => rfl

theorem runFiredTicks_pairwise :
    ∀ (actions : List ClockAction) (s : ClockState),
      0 < s.bpm →
      (∀ a ∈ actions, isSetBpm a = false) →
      (pollTimes actions).Pairwise (· ≤ ·) →
      (∀ t ∈ pollTimes actions,
        s.lastScheduledTick ≤ targetTickOf s.bpm s.startTime s.lookahead t) →
      (runFiredTicks s actions).Pairwise (· < ·) ∧
      ∀ n ∈ runFiredTicks s actions, s.lastScheduledTick < n := by
  intro actions
  induction actions with
  | nil =>
    intro s _ _ _ _
    simp [runFiredTicks]
  | cons a rest ih =>
    intro s hb hnb hsort hlast
    have hnbrest : ∀ x ∈ rest, isSetBpm x = false :=
      fun x hx => hnb x (List.mem_cons_of_mem _ hx)
    cases a with
    | poll now =>
      have hpt : pollTimes (ClockAction.poll now :: rest) = now :: pollTimes rest := rfl
      rw [hpt] at hsort hlast
      rw [List.pairwise_cons] at hsort
      obtain ⟨hnowle, hsort2⟩ := hsort
      by_cases hr : s.running = true
      · have hfields := stepClock_timing_fields s (ClockAction.poll now) rfl
        have hlast2 : (stepClock s (ClockAction.poll now)).1.lastScheduledTick =
            targetTickOf s.bpm s.startTime s.lookahead now :=
          (stepClock_poll_running hr now).1
        have hlastnow : s.lastScheduledTick ≤
            targetTickOf s.bpm s.startTime s.lookahead now :=
          hlast now (List.mem_cons_self _ _)
        have hrec := ih (stepClock s (ClockAction.poll now)).1
          (by rw [hfields.1]; exact hb)
          hnbrest
          hsort2
          (by intro t ht
              rw [hlast2, hfields.1, hfields.2.1, hfields.2.2]
              exact targetTickOf_mono hb (hnowle t ht))
        have hrun : runFiredTicks s (ClockAction.poll now :: rest) =
            pollTicks s now ++
              runFiredTicks (stepClock s (ClockAction.poll now)).1 rest := by
          show (if s.running = true then pollTicks s now else []) ++ _ = _
          rw [if_pos hr]
        rw [hrun]
        constructor
        · rw [List.pairwise_append]
          refine ⟨pairwise_intRange _ _, hrec.1, ?_⟩
          intro x hx y hy
          have hx2 := mem_intRange.1 hx
          have hy2 := hrec.2 y hy
          rw [hlast2] at hy2
          omega
        · intro n hn
          rw [List.mem_append] at hn
          rcases hn with hn | hn
          · have := mem_intRange.1 hn
            omega
          · have := hrec.2 n hn
            rw [hlast2] at this
            omega
      · have hrf : s.running = false := by simpa using hr
        have hstep : stepClock s (ClockAction.poll now) = (s, []) :=
          stepClock_poll_stopped hrf now
        have hrun : runFiredTicks s (ClockAction.poll now :: rest) =
            runFiredTicks s rest := by
          show (if s.running = true then pollTicks s now else []) ++ _ = _
          rw [if_neg hr, hstep]
          simp
        rw [hrun]
        exact ih s hb hnbrest hsort2
          (fun t ht => hlast t (List.mem_cons_of_mem _ ht))
    | setBpm b =>
      have := hnb (ClockAction.setBpm b) (List.mem_cons_self _ _)
      simp [isSetBpm] at this
    | stop =>
      have hfields := stepClock_timing_fields s ClockAction.stop rfl
      have hlastp := stepClock_last_nonpoll s ClockAction.stop (by intro t h; cases h)
      have hrec := ih (stepClock s ClockAction.stop).1
        (by rw [hfields.1]; exact hb)
        hnbrest
        hsort
        (by intro t ht
            rw [hlastp, hfields.1, hfields.2.1, hfields.2.2]
            exact hlast t ht)
      rw [runFiredTicks_cons_nonpoll s ClockAction.stop rest (by intro t h; cases h)]
      refine ⟨hrec.1, ?_⟩
      intro n hn
      have := hrec.2 n hn
      rw [hlastp] at this
      exact this
    | subscribe l =>
      have hfields := stepClock_timing_fields s (ClockAction.subscribe l) rfl
      have hlastp := stepClock_last_nonpoll s (ClockAction.subscribe l)
        (by intro t h; cases h)
      have hrec := ih (stepClock s (ClockAction.subscribe l)).1
        (by rw [hfields.1]; exact hb)
        hnbrest
        hsort
        (by intro t ht
            rw [hlastp, hfields.1, hfields.2.1, hfields.2.2]
            exact hlast t ht)
      rw [runFiredTicks_cons_nonpoll s (ClockAction.subscribe l) rest
        (by intro t h; cases h)]
      refine ⟨hrec.1, ?_⟩
      intro n hn
      have := hrec.2 n hn
      rw [hlastp] at this
      exact this
    | unsubscribe l =>
      have hfields := stepClock_timing_fields s (ClockAction.unsubscribe l) rfl
      have hlastp := stepClock_last_nonpoll s (ClockAction.unsubscribe l)
        (by intro t h; cases h)
      have hrec := ih (stepClock s (ClockAction.unsubscribe l)).1
        (by rw [hfields.1]; exact hb)
        hnbrest
        hsort
        (by intro t ht
            rw [hlastp, hfields.1, hfields.2.1, hfields.2.2]
            exact hlast t ht)
      rw [runFiredTicks_cons_nonpoll s (ClockAction.unsubscribe l) rest
        (by intro t h; cases h)]
      refine ⟨hrec.1, ?_⟩
      intro n hn
      have := hrec.2 n hn
      rw [hlastp] at this
      exact this

/-- Claim C2 (amended): over the entire run of one started Clock during
which setBpm is not called, with the poll times non-decreasing and not
earlier than the start time (the injected time source is monotone), every
tick number is fired at most once and the sequence of fired tick numbers
is strictly increasing: tick N fires before tick N+1 and no tick is ever
re-fired.  The amendment drops only the runs in which setBpm is called
between polls, which the counterexample shows can re-fire a tick. -/
theorem clock_ticks_monotone_no_refire (s : ClockState) (t0 : ℚ)
    (actions : List ClockAction)
    (hb : 0 < s.bpm) (hla : 0 ≤ s.lookahead)
    (hnb : ∀ a ∈ actions, isSetBpm a = false)
    (hsort : (pollTimes actions).Pairwise (· ≤ ·))
    (hafter : ∀ t ∈ pollTimes actions, t0 ≤ t) :
    (runFiredTicks (startClock s t0) actions).Pairwise (· < ·) := by
  refine (runFiredTicks_pairwise actions (startClock s t0) hb hnb hsort ?_).1
  intro t ht
  have h0 : (0:ℤ) ≤ targetTickOf s.bpm t0 s.lookahead t :=
    targetTickOf_nonneg hb hla (hafter t ht)
  show (-1 : ℤ) ≤ targetTickOf s.bpm t0 s.lookahead t
  omega

/-- Witness for the amended C2: a 120 bpm clock started at 0 and polled at
0 and then 0.02 with no bpm change. -/
theorem clock_ticks_monotone_no_refire_witness :
    (runFiredTicks (startClock (clockNew 120 none) 0)
      [ClockAction.poll 0, ClockAction.poll (1/50), ClockAction.stop]).Pairwise
      (· < ·) :=
  clock_ticks_monotone_no_refire (clockNew 120 none) 0
    [ClockAction.poll 0, ClockAction.poll (1/50), ClockAction.stop]
    (by norm_num [clockNew])
    (by norm_num [clockNew])
    (by simp [isSetBpm])
    (by norm_num [pollTimes, List.pairwise_cons])
    (by norm_num [pollTimes])

/-- Counterexample input for claim C2: a 120 bpm clock with one full
listener, started at 0, polled at 0, then setBpm(60), then polled at 0.01
and at 0.06. -/
def c2Clock : ClockState :=
  startClock { clockNew 120 none with listeners := [fullListener 0] } 0

/-- Counterexample actions for claim C2. -/
def c2Actions : List ClockAction :=
  [ClockAction.poll 0, ClockAction.setBpm 60,
   ClockAction.poll (1/100), ClockAction.poll (6/100)]

/-- Claim C2 counterexample: with setBpm called between polls the fired
tick numbers of the run are 0, 1, 1: the poll at 0 fires ticks 0 and 1,
lowering the bpm shrinks the target tick below the schedule cursor so the
poll at 0.01 rewinds the cursor to 0, and the poll at 0.06 re-fires
tick 1, refuting at-most-once firing and strict monotonicity. -/
theorem clock_ticks_refire_counterexample :
    runFiredTicks c2Clock c2Actions = [0, 1, 1] ∧
    ¬ (runFiredTicks c2Clock c2Actions).Pairwise (· < ·) := by
  have h : runFiredTicks c2Clock c2Actions = [0, 1, 1] := by
    norm_num [c2Clock, c2Actions, runFiredTicks, stepClock, pollTicks, targetTickOf,
      tickDuration, clockNew, startClock, intRange, fullListener, min_def, max_def]
    decide
  refine ⟨h, ?_⟩
  rw [h]
  decide

/-- Counterexample pass for claim C3: the tick 0 firing pass with two
listeners subscribed, both defining all four callbacks. -/
def c3Pass : List Invocation := fireTickEvents [fullListener 0, fullListener 1] 0 0

/-- Claim C3 counterexample: in that one pass the invocations run listener
by listener, so the onTick of the second listener (index 4) comes after
the onBeat of the first listener (index 1): it is not true that every
onTick invocation precedes every onBeat invocation once two listeners are
subscribed. -/
theorem clock_callback_order_counterexample :
    c3Pass.map (fun e => (e.listener, e.kind)) =
      [(0, CbKind.tick), (0, CbKind.beat), (0, CbKind.bar), (0, CbKind.phrase),
       (1, CbKind.tick), (1, CbKind.beat), (1, CbKind.bar), (1, CbKind.phrase)] ∧
    ¬ ∀ (i j : Fin c3Pass.length),
        (c3Pass.get i).kind = CbKind.tick → (c3Pass.get j).kind = CbKind.beat →
        (i : ℕ) < (j : ℕ) := by
  constructor
  · decide
  · decide

theorem map_kind_flag_sublist (c : Prop) [Decidable c] (e : Invocation) (k : CbKind)
    (hk : e.kind = k) : ((if c then [e] else []).map Invocation.kind).Sublist [k] := by
  split
  · simp [hk]
  · simp

theorem map_kind_nested_sublist (c1 c2 : Prop) [Decidable c1] [Decidable c2]
    (e : Invocation) (k : CbKind) (hk : e.kind = k) :
    ((if c1 then (if c2 then [e] else []) else []).map Invocation.kind).Sublist [k] := by
  split
  · exact map_kind_flag_sublist c2 e k hk
  · simp

/-- Claim C3 (amended): within one tick-firing pass the listeners are
notified in subscription order (the pass is the concatenation, over the
subscriber list in order, of the invocations of each listener), and for
each listener its onTick precedes its onBeat, which precedes its onBar,
which precedes its onPhrase (the kind sequence of the invocations of one listener is a subsequence of tick, beat, bar, phrase), all four
carrying the same timestamp.  The amendment scopes the kind ordering to
each listener: across listeners a later onTick follows an earlier onBeat,
as the counterexample shows. -/
theorem clock_callback_order (listeners : List ClockListener) (tick : ℤ) (ts : ℚ) :
    fireTickEvents listeners tick ts =
      listeners.flatMap (fun l => listenerFire l tick ts) ∧
    (∀ l : ClockListener,
      ((listenerFire l tick ts).map Invocation.kind).Sublist
        [CbKind.tick, CbKind.beat, CbKind.bar, CbKind.phrase]) ∧
    (∀ l : ClockListener, ∀ e ∈ listenerFire l tick ts,
      e.time = ts ∧ e.listener = l.id) := by
  refine ⟨rfl, ?_, ?_⟩
  · intro l
    unfold listenerFire
    simp only [List.map_append]
    exact @List.Sublist.append _ _ [CbKind.tick, CbKind.beat, CbKind.bar] _
      [CbKind.phrase]
      (@List.Sublist.append _ _ [CbKind.tick, CbKind.beat] _ [CbKind.bar]
        (@List.Sublist.append _ _ [CbKind.tick] _ [CbKind.beat]
          (map_kind_flag_sublist _ _ _ rfl)
          (map_kind_nested_sublist _ _ _ _ rfl))
        (map_kind_nested_sublist _ _ _ _ rfl))
      (map_kind_nested_sublist _ _ _ _ rfl)
  · intro l e he
    exact ⟨(listenerFire_mem he).1, (listenerFire_mem he).2.2⟩

/-- Claim C4 counterexample: the Clock constructor stores the bpm passed
to it without clamping, so a Clock constructed with bpm 200 has effective
bpm 200, outside [60, 140]. -/
theorem clock_constructor_bpm_counterexample :
    (clockNew 200 none).bpm = 200 ∧ ¬ ((clockNew 200 none).bpm ≤ 140) := by
  refine ⟨rfl, ?_⟩
  show ¬ ((200 : ℚ) ≤ 140)
  decide

/-- Claim C4 (amended): setBpm clamps its argument to [60, 140] for any
prior state of the Clock — setting 30 yields effective bpm 60 and setting
200 yields 140 — but the constructor stores the bpm passed at
construction unclamped, so the effective bpm is only guaranteed to lie in
[60, 140] once setBpm has been called. -/
theorem clock_setBpm_clamps (s : ClockState) (b : ℚ) :
    (stepClock s (ClockAction.setBpm b)).1.bpm = max 60 (min 140 b) ∧
    60 ≤ (stepClock s (ClockAction.setBpm b)).1.bpm ∧
    (stepClock s (ClockAction.setBpm b)).1.bpm ≤ 140 ∧
    (stepClock s (ClockAction.setBpm 30)).1.bpm = 60 ∧
    (stepClock s (ClockAction.setBpm 200)).1.bpm = 140 ∧
    (clockNew b none).bpm = b := by
  refine ⟨rfl, le_max_left _ _, ?_, ?_, ?_, rfl⟩
  · exact max_le (by norm_num) (min_le_left _ _)
  · show max 60 (min 140 30) = (60:ℚ)
    norm_num
  · show max 60 (min 140 200) = (140:ℚ)
    norm_num

/-- Claim C6: stop() is final and idempotent.  After a stop action, no
listener callback is ever delivered again, whatever further actions occur
and however much time the later polls report; and stopping an
already-stopped Clock changes nothing. -/
theorem clock_stop_silences (s : ClockState) (acts : List ClockAction) :
    (runClock (stepClock s ClockAction.stop).1 acts).2 = [] ∧
    stepClock (stepClock s ClockAction.stop).1 ClockAction.stop =
      ((stepClock s ClockAction.stop).1, []) := by
  constructor
  · have key : ∀ (acts : List ClockAction) (s2 : ClockState), s2.running = false →
        (runClock s2 acts).2 = [] := by
      intro acts
      induction acts with
      | nil =>
        intro s2 _
        rfl
      | cons a rest ih =>
        intro s2 h2
        have hstopped := stepClock_keeps_stopped h2 a
        have hstep : (stepClock s2 a).2 = [] := by
          cases a with
          | poll now => rw [stepClock_poll_stopped h2]
          | setBpm b => rfl
          | stop => rfl
          | subscribe l => rfl
          | unsubscribe l => rfl
        show (stepClock s2 a).2 ++ (runClock (stepClock s2 a).1 rest).2 = []
        rw [hstep, ih (stepClock s2 a).1 hstopped]
        rfl
    exact key acts _ rfl
  · show ({ (stepClock s ClockAction.stop).1 with running := false }, []) = _
    rfl

/-- Claim C5: after start() on any Clock with a positive bpm, a
nonnegative lookahead and a subscribed listener defining all four
callbacks at the head of the subscriber list, the first poll (the
schedule() call start() issues immediately, at any time source value not
earlier than the recorded start time) fires tick 0 first, with beat 0,
bar 0 and phrase 0, and the first four delivered invocations are the onTick,
onBeat, onBar and onPhrase of that listener for counter 0, all
timestamped with the recorded start time. -/
theorem clock_first_tick_zero (s : ClockState) (t0 t : ℚ) (l : ClockListener)
    (rest : List ClockListener) (acts : List ClockAction)
    (hb : 0 < s.bpm) (hla : 0 ≤ s.lookahead) (ht : t0 ≤ t)
    (hfour : l.hasOnTick = true ∧ l.hasOnBeat = true ∧ l.hasOnBar = true ∧
      l.hasOnPhrase = true)
    (hsub : s.listeners = l :: rest) :
    (runClock (startClock s t0) (ClockAction.poll t :: acts)).2.take 4 =
      [⟨l.id, CbKind.tick, 0, t0⟩, ⟨l.id, CbKind.beat, 0, t0⟩,
       ⟨l.id, CbKind.bar, 0, t0⟩, ⟨l.id, CbKind.phrase, 0, t0⟩] ∧
    (runFiredTicks (startClock s t0) (ClockAction.poll t :: acts)).head? =
      some 0 := by
  obtain ⟨h1, h2, h3, h4⟩ := hfour
  have htarget : (0:ℤ) ≤ targetTickOf s.bpm t0 s.lookahead t :=
    targetTickOf_nonneg hb hla ht
  have hpt : pollTicks (startClock s t0) t =
      0 :: intRange 1 (targetTickOf s.bpm t0 s.lookahead t) := by
    show intRange ((-1) + 1) (targetTickOf s.bpm t0 s.lookahead t) = _
    rw [show ((-1:ℤ) + 1) = 0 from by norm_num]
    exact intRange_eq_cons htarget
  have hfire : listenerFire l 0 t0 =
      [⟨l.id, CbKind.tick, 0, t0⟩, ⟨l.id, CbKind.beat, 0, t0⟩,
       ⟨l.id, CbKind.bar, 0, t0⟩, ⟨l.id, CbKind.phrase, 0, t0⟩] := by
    unfold listenerFire
    norm_num [ticksPerBeat, beatsPerBar, barsPerPhrase, h1, h2, h3, h4]
  have htime : (startClock s t0).startTime +
      ((0:ℤ) : ℚ) * tickDuration (startClock s t0).bpm = t0 := by
    show t0 + ((0:ℤ) : ℚ) * tickDuration s.bpm = t0
    norm_num
  constructor
  · show ((stepClock (startClock s t0) (ClockAction.poll t)).2 ++
        (runClock (stepClock (startClock s t0) (ClockAction.poll t)).1 acts).2).take 4 =
        _
    rw [(stepClock_poll_running rfl t).2, hpt, List.flatMap_cons]
    rw [show (startClock s t0).listeners = l :: rest from hsub]
    unfold fireTickEvents
    rw [List.flatMap_cons, htime, hfire]
    rw [List.append_assoc, List.append_assoc]
    exact List.take_left' rfl
  · show ((pollTicks (startClock s t0) t) ++
        runFiredTicks (stepClock (startClock s t0) (ClockAction.poll t)).1 acts).head? =
        some 0
    rw [hpt]
    rfl

/-- Witness for C5: a 120 bpm clock with one full listener, started at 0
and polled at 0. -/
theorem clock_first_tick_zero_witness :
    (runClock
        (startClock { clockNew 120 none with listeners := [fullListener 7] } 0)
        (ClockAction.poll 0 :: [])).2.take 4 =
      [⟨7, CbKind.tick, 0, 0⟩, ⟨7, CbKind.beat, 0, 0⟩,
       ⟨7, CbKind.bar, 0, 0⟩, ⟨7, CbKind.phrase, 0, 0⟩] ∧
    (runFiredTicks
        (startClock { clockNew 120 none with listeners := [fullListener 7] } 0)
        (ClockAction.poll 0 :: [])).head? = some 0 :=
  clock_first_tick_zero { clockNew 120 none with listeners := [fullListener 7] }
    0 0 (fullListener 7) [] []
    (by norm_num [clockNew]) (by norm_num [clockNew]) le_rfl
    ⟨rfl, rfl, rfl, rfl⟩ rfl

theorem buildBank_mods (adds : List (String × Modulator)) :
    (buildBank adds).mods = adds := by
  have key : ∀ (adds : List (String × Modulator)) (b : ModulationBank),
      (adds.foldl (fun b p => b.add p.1 p.2) b).mods = b.mods ++ adds := by
    intro adds
    induction adds with
    | nil =>
      intro b
      simp
    | cons a rest ih =>
      intro b
      rw [List.foldl_cons, ih]
      show (b.mods ++ [(a.1, a.2)]) ++ rest = _
      simp
  rw [buildBank, key]
  rfl

/-- Claim C7: for every name never added to a ModulationBank and every
time t, getValue(name, t) returns 0 and getNormalized(name, t) returns
0.5; both are total functions (fail-soft, no exception path exists). -/
theorem modulation_unknown_name_defaults (adds : List (String × Modulator))
    (name : String) (t : ℚ) (h : name ∉ adds.map Prod.fst) :
    (buildBank adds).getValue name t = 0 ∧
    (buildBank adds).getNormalized name t = 1/2 := by
  have hget : (buildBank adds).get name = none := by
    unfold ModulationBank.get
    rw [buildBank_mods]
    rw [Option.map_eq_none', List.find?_eq_none]
    intro p hp
    simp only [beq_iff_eq]
    intro heq
    exact h (heq ▸ List.mem_map_of_mem Prod.fst hp)
  constructor
  · unfold ModulationBank.getValue
    rw [hget]
  · unfold ModulationBank.getNormalized
    rw [hget]

/-- Witness for C7: the name missing was never added to a bank holding one
modulator under another name. -/
theorem modulation_unknown_name_defaults_witness :
    (buildBank [("filterMain", ⟨900, 400, 1/20, 0, fun _ => 0⟩)]).getValue
        "missing" 0 = 0 ∧
    (buildBank [("filterMain", ⟨900, 400, 1/20, 0, fun _ => 0⟩)]).getNormalized
        "missing" 0 = 1/2 :=
  modulation_unknown_name_defaults [("filterMain", ⟨900, 400, 1/20, 0, fun _ => 0⟩)]
    "missing" 0 (by simp)

/-- Claim C8 counterexample: at trigger time 1 the scheduled envelope has
exactly the three breakpoints (1, 1), (1.003, 0.65), (1.123, 1) — after
the attack ramp reaches the duck depth, the release ramp starts at that
same instant, so the envelope contains no hold at the duck depth (no
constant segment of positive length at value 0.65). -/
theorem sidechain_no_hold_counterexample :
    envBreakpoints 1 =
      [(1, 1), (1 + 3/1000, duckAmount), (1 + 3/1000 + duckRelease, 1)] ∧
    ¬ HasHoldSegment (envBreakpoints 1) duckAmount := by
  have henv : envBreakpoints 1 =
      [(1, 1), (1 + 3/1000, duckAmount), (1 + 3/1000 + duckRelease, 1)] := rfl
  refine ⟨henv, ?_⟩
  rintro ⟨i, p, q, hp, hq, hpv, hqv, hlt⟩
  rw [henv] at hp hq
  match i, hp, hq with
  | 0, hp, hq =>
    simp only [List.get?] at hp hq
    rw [← Option.some_inj.1 hp] at hpv
    norm_num [duckAmount] at hpv
  | 1, hp, hq =>
    simp only [List.get?] at hp hq
    rw [← Option.some_inj.1 hq] at hqv
    norm_num [duckAmount] at hqv
  | (n + 2), hp, hq =>
    simp only [List.get?] at hq
    cases hq

/-- Claim C8 (amended): for every trigger time t, triggerSidechain(t)
schedules, on the gain parameter of the shared sidechain gain node and on
no other node, exactly value 1 at t, a 3 ms linear attack ramp down to
the fixed duck depth 0.65 at t + 0.003, and then immediately a linear
release ramp back to 1 at t + 0.003 + 0.12 — with no hold segment at the
duck depth between attack and release (the amendment drops only the
hold the claim asserted). -/
theorem engine_sidechain_schedule (t : ℚ) :
    triggerSidechain t =
      [⟨"sidechainGain", "gain", AutomationCmd.setValueAtTime 1 t⟩,
       ⟨"sidechainGain", "gain",
        AutomationCmd.linearRampToValueAtTime duckAmount (t + 3/1000)⟩,
       ⟨"sidechainGain", "gain",
        AutomationCmd.linearRampToValueAtTime 1 (t + 3/1000 + duckRelease)⟩] ∧
    (∀ e ∈ triggerSidechain t, e.node = "sidechainGain" ∧ e.param = "gain") ∧
    ¬ HasHoldSegment (envBreakpoints t) duckAmount := by
  refine ⟨rfl, ?_, ?_⟩
  · intro e he
    unfold triggerSidechain at he
    simp only [List.mem_cons, List.not_mem_nil, or_false] at he
    rcases he with rfl | rfl | rfl <;> exact ⟨rfl, rfl⟩
  · rintro ⟨i, p, q, hp, hq, hpv, hqv, hlt⟩
    have henv : envBreakpoints t =
        [(t, 1), (t + 3/1000, duckAmount), (t + 3/1000 + duckRelease, 1)] := rfl
    rw [henv] at hp hq
    match i, hp, hq with
    | 0, hp, hq =>
      simp only [List.get?] at hp hq
      rw [← Option.some_inj.1 hp] at hpv
      norm_num [duckAmount] at hpv
    | 1, hp, hq =>
      simp only [List.get?] at hp hq
      rw [← Option.some_inj.1 hq] at hqv
      norm_num [duckAmount] at hqv
    | (n + 2), hp, hq =>
      simp only [List.get?] at hq
      cases hq

/-- Claim C9 counterexample: setKitName, invoked after the Engine
constructor has returned, mutates the kitName field of the MusicState —
the state starts with kitName empty and holds the new name afterwards. -/
theorem musicState_mutation_counterexample :
    (initMusicState 0 0).kitName = "" ∧
    (setKitName (initMusicState 0 0) "Deep Kit").kitName = "Deep Kit" ∧
    ("Deep Kit" : String) ≠ "" := by
  refine ⟨rfl, rfl, ?_⟩
  decide

/-- Claim C9 (amended): the musical core of MusicState — root, scale,
scaleName and notes — is chosen at Engine construction and no exposed
operation changes it afterwards; but kitName and synthName start empty
and are written later through setKitName and setSynthName, each of which
changes exactly its own field and nothing else. -/
theorem engine_musicState_fields (st : MusicState) (name : String) (i j : ℕ) :
    (setKitName st name).root = st.root ∧
    (setKitName st name).scale = st.scale ∧
    (setKitName st name).scaleName = st.scaleName ∧
    (setKitName st name).notes = st.notes ∧
    (setKitName st name).synthName = st.synthName ∧
    (setKitName st name).kitName = name ∧
    (setSynthName st name).root = st.root ∧
    (setSynthName st name).scale = st.scale ∧
    (setSynthName st name).scaleName = st.scaleName ∧
    (setSynthName st name).notes = st.notes ∧
    (setSynthName st name).kitName = st.kitName ∧
    (setSynthName st name).synthName = name ∧
    (initMusicState i j).kitName = "" ∧
    (initMusicState i j).synthName = "" :=
  ⟨rfl, rfl, rfl, rfl, rfl, rfl, rfl, rfl, rfl, rfl, rfl, rfl, rfl, rfl⟩

/-- Claim C10: subscribe appends unconditionally, so subscribing the same
listener twice makes every event reach it twice (one tick-firing pass
over the duplicated registration delivers each of its invocations twice);
one unsubscribe of a twice-subscribed listener removes exactly the first
of its two registrations, leaving the duplicate still subscribed; and
unsubscribing a listener that was never subscribed leaves the subscriber
list unchanged. -/
theorem clock_subscribe_duplicates (s : ClockState) (l : ClockListener)
    (L : List ClockListener) (tick : ℤ) (ts : ℚ) (hmem : l ∉ L) :
    (stepClock s (ClockAction.subscribe l)).1.listeners = s.listeners ++ [l] ∧
    fireTickEvents [l, l] tick ts = listenerFire l tick ts ++ listenerFire l tick ts ∧
    unsubscribeList (l :: l :: L) l = l :: L ∧
    l ∈ unsubscribeList (l :: l :: L) l ∧
    unsubscribeList L l = L := by
  have hdup : unsubscribeList (l :: l :: L) l = l :: L := by
    unfold unsubscribeList
    rw [List.indexOf_cons_self]
    simp
  refine ⟨rfl, ?_, hdup, ?_, ?_⟩
  · unfold fireTickEvents
    simp
  · rw [hdup]
    exact List.mem_cons_self _ _
  · unfold unsubscribeList
    rw [List.indexOf_eq_length.2 hmem]
    simp

/-- Witness for C10: the listener with id 0 subscribed twice ahead of a
different listener; one unsubscribe removes only its first registration
and the duplicate is still subscribed afterwards. -/
theorem clock_subscribe_duplicates_witness :
    (stepClock (clockNew 120 none) (ClockAction.subscribe (fullListener 0))).1.listeners =
      (clockNew 120 none).listeners ++ [fullListener 0] ∧
    fireTickEvents [fullListener 0, fullListener 0] 0 0 =
      listenerFire (fullListener 0) 0 0 ++ listenerFire (fullListener 0) 0 0 ∧
    unsubscribeList [fullListener 0, fullListener 0, fullListener 1] (fullListener 0) =
      [fullListener 0, fullListener 1] ∧
    fullListener 0 ∈
      unsubscribeList [fullListener 0, fullListener 0, fullListener 1] (fullListener 0) ∧
    unsubscribeList [fullListener 1] (fullListener 0) = [fullListener 1] :=
  clock_subscribe_duplicates (clockNew 120 none) (fullListener 0) [fullListener 1]
    0 0 (by decide)
